import Mathlib

/-!
# Verification of the `Rust-Events` event publisher

A shallow embedding of `src/lib.rs` (`EventPublisher`).  Handlers are opaque
callables identified by their storage address at subscription time; the
embedding represents each registry entry by that identity key, modelled as a
`Nat` (the Rust code compares the addresses as `usize`, so the key order is
the numeric order).  The registry `Vec<Arc<Box<Fn(&Event<E>)>>>` becomes a
`List Nat` of identity keys.

`usize` arithmetic is modelled over `Nat` with explicit reduction modulo
`2 ^ 64` where the Rust code can overflow (release-mode wrapping semantics);
the out-of-bounds `Vec` index that follows a wrapped result is modelled by
`List.get?` returning `none`, and a panic is modelled by the whole operation
returning `none`.
-/

/-- `usize::MAX + 1`, i.e. `2 ^ 64`. -/
def USIZE : Nat := 18446744073709551616

/-- Wrapping subtraction on `usize` (release-mode semantics of `a - b`). -/
def usize_sub (a b : Nat) : Nat := (a % USIZE + (USIZE - b % USIZE)) % USIZE

/-- `Event<E>`: either a payload `Args e` or the sentinel `Missing`
(`enum Event<E>` in `src/lib.rs`). -/
inductive Event (E : Type) where
  | Args : E → Event E
  | Missing : Event E
deriving Repr, DecidableEq

/-- `EventPublisher`: its `handlers` vector, each handler represented by its
identity key (the storage address of the boxed callable, a `usize`). -/
structure EventPublisher where
  handlers : List Nat
deriving Repr, DecidableEq

namespace EventPublisher

/-- `EventPublisher::new()`: the registry starts empty. -/
def new : EventPublisher := ⟨[]⟩

/-- `subscribe_handler`: push the new handler's key, then re-sort the whole
vector by key (`Vec::push` followed by `sort_by` on the raw addresses; Rust's
`sort_by` is a stable sort, as is `List.mergeSort`). -/
def subscribe_handler (pub : EventPublisher) (k : Nat) : EventPublisher :=
  ⟨(pub.handlers ++ [k]).mergeSort (fun a b => Nat.ble a b)⟩

mutual

/-- `unsub_common_match` and `recursive_unsub_search` from `src/lib.rs`,
lines 60-93, as one fuel-indexed mutual recursion.  The result is
`some (found, handlers')` for a normal return and `none` for a panic
(an out-of-bounds `Vec` index after the wrapped subtraction on line 91).
The fuel only bounds the call depth; running out also yields `none`. -/
def unsub_common_match (fuel : Nat) (hs : List Nat) (p : Nat)
    (l_bound mid u_bound : Nat) : Option (Bool × List Nat) :=
  match fuel with
  | 0 => none
  | fuel' + 1 =>
    match hs.get? mid with
    | none => none
    | some k =>
      match compare p k with
      | Ordering.lt =>
          if mid = 0 then recursive_unsub_search fuel' hs p l_bound mid
          else recursive_unsub_search fuel' hs p l_bound (mid - 1)
      | Ordering.gt => recursive_unsub_search fuel' hs p mid u_bound
      | Ordering.eq => some (true, hs.eraseIdx mid)

/-- See `unsub_common_match`.  The base case `l_bound == u_bound` compares the
candidate against `handlers[l_bound]` and returns `true` on a match without
removing anything (exactly as lines 84-89 of the source do); otherwise it
computes `mid = l_bound + ((l_bound - u_bound) / 2)` with wrapping `usize`
subtraction (line 91) and recurses. -/
def recursive_unsub_search (fuel : Nat) (hs : List Nat) (p : Nat)
    (l_bound u_bound : Nat) : Option (Bool × List Nat) :=
  match fuel with
  | 0 => none
  | fuel' + 1 =>
    if l_bound = u_bound then
      match hs.get? l_bound with
      | none => none
      | some k => if p = k then some (true, hs) else some (false, hs)
    else
      unsub_common_match fuel' hs p l_bound
        ((l_bound + usize_sub l_bound u_bound / 2) % USIZE) u_bound

end

end EventPublisher

namespace EventPublisher

/-- `unsubscribe_handler`: `false` on the empty registry, otherwise the binary
search `unsub_common_match(handler, 0, len / 2, len - 1)`.  The fuel
`len + 2` strictly exceeds the deepest call chain the search can reach on any
registry a real `Vec` can hold (the chain is at most three calls long for
every registry shorter than `2 ^ 62` entries, and a `Vec` of 8-byte elements
is capped at `isize::MAX` bytes, i.e. fewer than `2 ^ 61` entries), so `none`
coincides with a panic of the Rust code on all such registries. -/
def unsubscribe_handler (pub : EventPublisher) (p : Nat) :
    Option (Bool × EventPublisher) :=
  if pub.handlers.length = 0 then some (false, pub)
  else
    match unsub_common_match (pub.handlers.length + 2) pub.handlers p 0
        (pub.handlers.length / 2) (pub.handlers.length - 1) with
    | none => none
    | some (b, hs) => some (b, ⟨hs⟩)

/-- `publish_event`: iterate over the handlers in registry order, invoking each
with a reference to the same event.  The embedding returns the invocation
trace, in order: one `(identity key, event)` pair per call made. -/
def publish_event {E : Type} (pub : EventPublisher) (e : Event E) :
    List (Nat × Event E) :=
  pub.handlers.map (fun h => (h, e))

end EventPublisher

/-- The registry invariant: the handler list is sorted by identity key. -/
def SortedByKey (hs : List Nat) : Prop := List.Sorted (· ≤ ·) hs

instance : DecidablePred SortedByKey := fun hs =>
  inferInstanceAs (Decidable (List.Sorted (· ≤ ·) hs))

namespace EventPublisher

/-- Result-shape lemma for the binary search: a normal return either leaves the
handler list untouched, or reports `true` and removes exactly the entry at one
valid index.  Proved simultaneously for both mutually recursive functions by
induction on the fuel. -/
theorem unsub_shape (fuel : Nat) :
    (∀ hs p l mid u b hs', unsub_common_match fuel hs p l mid u = some (b, hs') →
        hs' = hs ∨ (b = true ∧ ∃ i, i < hs.length ∧ hs' = hs.eraseIdx i))
  ∧ (∀ hs p l u b hs', recursive_unsub_search fuel hs p l u = some (b, hs') →
        hs' = hs ∨ (b = true ∧ ∃ i, i < hs.length ∧ hs' = hs.eraseIdx i)) := by
  induction fuel with
  | zero =>
    refine ⟨fun hs p l mid u b hs' h => ?_, fun hs p l u b hs' h => ?_⟩
    · simp [unsub_common_match] at h
    · simp [recursive_unsub_search] at h
  | succ fuel ih =>
    refine ⟨fun hs p l mid u b hs' h => ?_, fun hs p l u b hs' h => ?_⟩
    · rw [unsub_common_match] at h
      split at h
      · exact absurd h (by simp)
      · rename_i k hget
        split at h
        · split at h
          · exact ih.2 _ _ _ _ _ _ h
          · exact ih.2 _ _ _ _ _ _ h
        · exact ih.2 _ _ _ _ _ _ h
        · have hmid : mid < hs.length := by
            by_contra hh
            rw [List.get?_eq_none.mpr (Nat.le_of_not_lt hh)] at hget
            cases hget
          obtain ⟨hb, hhs⟩ := Prod.mk.injEq .. ▸ (Option.some.injEq .. ▸ h)
          exact Or.inr ⟨hb.symm, mid, hmid, hhs.symm⟩
    · rw [recursive_unsub_search] at h
      split at h
      · split at h
        · exact absurd h (by simp)
        · split at h
          · obtain ⟨hb, hhs⟩ := Prod.mk.injEq .. ▸ (Option.some.injEq .. ▸ h)
            exact Or.inl hhs.symm
          · obtain ⟨hb, hhs⟩ := Prod.mk.injEq .. ▸ (Option.some.injEq .. ▸ h)
            exact Or.inl hhs.symm
      · exact ih.1 _ _ _ _ _ _ _ h

/-- `subscribe_handler` always sorts the registry by identity key. -/
theorem subscribe_handler_sorted (pub : EventPublisher) (k : Nat) :
    SortedByKey (subscribe_handler pub k).handlers := by
  have htrans : ∀ a b c : Nat, Nat.ble a b → Nat.ble b c → Nat.ble a c := by
    intro a b c h1 h2
    simp only [Nat.ble_eq] at *
    omega
  have htotal : ∀ a b : Nat, Nat.ble a b || Nat.ble b a := by
    intro a b
    rcases Nat.le_total a b with h | h
    · simp [Nat.ble_eq, h]
    · simp [Nat.ble_eq, h]
  have hsorted := List.sorted_mergeSort htrans htotal (pub.handlers ++ [k])
  exact hsorted.imp fun hab => Nat.le_of_ble_eq_true hab

/-- The registry produced by `subscribe_handler` is a permutation of the old
registry with the new key appended (push + stable sort). -/
theorem subscribe_handler_perm (pub : EventPublisher) (k : Nat) :
    (subscribe_handler pub k).handlers.Perm (pub.handlers ++ [k]) :=
  List.mergeSort_perm _ _

/-- One subscribe call grows the registry by exactly one entry. -/
theorem subscribe_handler_length (pub : EventPublisher) (k : Nat) :
    (subscribe_handler pub k).handlers.length = pub.handlers.length + 1 := by
  simp [subscribe_handler]

end EventPublisher

/-- Sorted registries stay sorted after removing one entry. -/
theorem sortedByKey_eraseIdx (hs : List Nat) (i : Nat) (h : SortedByKey hs) :
    SortedByKey (hs.eraseIdx i) :=
  List.Pairwise.sublist (List.eraseIdx_sublist hs i) h

open EventPublisher

/-- C1: the claim says `unsubscribe_handler` returns `true` only if a matching
entry was found AND removed, so that on `true` the registry holds one fewer
entry with that key.  The code violates this: on the registry with keys
`[1, 2]`, unsubscribing key `1` drives the search into the single-candidate
base case of `recursive_unsub_search`, which returns `true` without removing
anything — the registry still is `[1, 2]`. -/
theorem unsubscribe_true_without_removal :
    unsubscribe_handler ⟨[1, 2]⟩ 1 = some (true, ⟨[1, 2]⟩) := by
  simp [unsubscribe_handler, unsub_common_match, recursive_unsub_search,
    usize_sub, USIZE, compare, compareOfLessAndEq]

/-- C3: sequential `publish_event` invokes every currently-registered handler
exactly once, in registry order (identity-sorted when the registry invariant
holds), and passes every one of them the same event; since delivery is a plain
in-order traversal, the trace is complete when the call returns.  The
invocation trace projects to exactly the handler list, every invocation
carries the event `e`, and the trace's key order is sorted. -/
theorem publish_event_all_in_order {E : Type} (pub : EventPublisher) (e : Event E)
    (hsort : SortedByKey pub.handlers) :
    (publish_event pub e).map Prod.fst = pub.handlers
  ∧ (∀ x ∈ publish_event pub e, x.2 = e)
  ∧ SortedByKey ((publish_event pub e).map Prod.fst) := by
  have hmap : (publish_event pub e).map Prod.fst = pub.handlers := by
    simp only [publish_event, List.map_map]
    exact List.map_id pub.handlers
  refine ⟨hmap, ?_, hmap ▸ hsort⟩
  intro x hx
  simp only [publish_event, List.mem_map] at hx
  obtain ⟨a, _, rfl⟩ := hx
  rfl

/-- C3 witness: publishing `Args 42` to the three-handler registry `[1, 2, 3]`. -/
theorem publish_event_all_in_order_witness :
    (publish_event ⟨[1, 2, 3]⟩ (Event.Args (42 : Nat))).map Prod.fst
        = (⟨[1, 2, 3]⟩ : EventPublisher).handlers
  ∧ (∀ x ∈ publish_event ⟨[1, 2, 3]⟩ (Event.Args (42 : Nat)), x.2 = Event.Args 42)
  ∧ SortedByKey ((publish_event ⟨[1, 2, 3]⟩ (Event.Args (42 : Nat))).map Prod.fst) :=
  publish_event_all_in_order ⟨[1, 2, 3]⟩ (Event.Args 42) (by decide)

/-- C4: the claim says the midpoint arithmetic of the search never underflows
and the bisection terminates normally.  The code computes
`l_bound + ((l_bound - u_bound) / 2)` on line 91, and `l_bound - u_bound`
underflows whenever `l_bound < u_bound`: at the bounds `(1, 2)` — exactly the
ones reached when unsubscribing key `3` from the registry `[1, 2, 3]` — the
wrapping subtraction yields `2 ^ 64 - 1`, the midpoint lands far out of
bounds, and the whole call panics (`none`). -/
theorem unsubscribe_underflow_panics :
    usize_sub 1 2 = USIZE - 1 ∧ unsubscribe_handler ⟨[1, 2, 3]⟩ 3 = none := by
  constructor
  · simp [usize_sub, USIZE]
  · simp [unsubscribe_handler, unsub_common_match, recursive_unsub_search,
      usize_sub, USIZE, compare, compareOfLessAndEq]

/-- C5: the registry is always sorted by identity key: it holds for
`EventPublisher.new`, after every `subscribe_handler` (which re-sorts), and
after every normally-returning `unsubscribe_handler` (which removes at most
one entry, and removal keeps a sorted list sorted). -/
theorem registry_sorted_invariant (pub : EventPublisher) (k p : Nat)
    (hsort : SortedByKey pub.handlers) :
    SortedByKey EventPublisher.new.handlers
  ∧ SortedByKey (subscribe_handler pub k).handlers
  ∧ (∀ b pub', unsubscribe_handler pub p = some (b, pub') →
      SortedByKey pub'.handlers) := by
  refine ⟨by simp [EventPublisher.new, SortedByKey], subscribe_handler_sorted pub k, ?_⟩
  intro b pub' h
  rw [unsubscribe_handler] at h
  split at h
  · obtain ⟨hb, hp⟩ := Prod.mk.injEq .. ▸ (Option.some.injEq .. ▸ h)
    rw [← hp]
    exact hsort
  · split at h
    · cases h
    · rename_i b0 hs0 hmatch
      obtain ⟨hb, hp⟩ := Prod.mk.injEq .. ▸ (Option.some.injEq .. ▸ h)
      rcases (unsub_shape _).1 _ _ _ _ _ _ _ hmatch with heq | ⟨-, i, hi, heq⟩
      · rw [← hp, heq]
        exact hsort
      · rw [← hp, heq]
        exact sortedByKey_eraseIdx _ _ hsort

/-- C5 witness: the invariant theorem applied to the sorted registry `[1, 3]`. -/
theorem registry_sorted_invariant_witness :
    SortedByKey (⟨[1, 3]⟩ : EventPublisher).handlers ∧
    (SortedByKey EventPublisher.new.handlers
  ∧ SortedByKey (subscribe_handler ⟨[1, 3]⟩ 2).handlers
  ∧ (∀ b pub', unsubscribe_handler ⟨[1, 3]⟩ 3 = some (b, pub') →
      SortedByKey pub'.handlers)) :=
  ⟨by decide, registry_sorted_invariant ⟨[1, 3]⟩ 2 3 (by decide)⟩

/-- Auxiliary to C6: folding `subscribe_handler` over a list of keys grows the
registry by exactly the number of keys, from any starting registry. -/
theorem foldl_subscribe_length : ∀ (ks : List Nat) (pub : EventPublisher),
    ((ks.foldl subscribe_handler pub).handlers).length = pub.handlers.length + ks.length
  | [], pub => by simp
  | k :: ks, pub => by
    rw [List.foldl_cons, foldl_subscribe_length ks, subscribe_handler_length]
    simp [Nat.add_assoc, Nat.add_comm 1 ks.length]

/-- Auxiliary to C6: each key's multiplicity in the registry grows by its
multiplicity among the subscribed keys, so duplicates occupy separate slots. -/
theorem foldl_subscribe_count : ∀ (ks : List Nat) (pub : EventPublisher) (k' : Nat),
    ((ks.foldl subscribe_handler pub).handlers).count k'
      = pub.handlers.count k' + ks.count k'
  | [], pub, k' => by simp
  | k :: ks, pub, k' => by
    rw [List.foldl_cons, foldl_subscribe_count ks,
      (subscribe_handler_perm pub k).count_eq, List.count_append, List.count_cons]
    by_cases hk : k' = k
    · simp [hk]
      omega
    · simp [hk, List.count_singleton]
      omega

/-- C6: starting from a newly constructed publisher, every sequence of
subscribe calls succeeds (subscription is total) and the registry size equals
the number of calls made, with duplicate keys kept as separate entries (each
key's multiplicity in the registry equals its multiplicity among the calls). -/
theorem registry_size_eq_subscribe_calls (ks : List Nat) :
    ((ks.foldl subscribe_handler EventPublisher.new).handlers).length = ks.length
  ∧ ∀ k', ((ks.foldl subscribe_handler EventPublisher.new).handlers).count k'
      = ks.count k' := by
  have h1 := foldl_subscribe_length ks EventPublisher.new
  have h2 := fun k' => foldl_subscribe_count ks EventPublisher.new k'
  simp [EventPublisher.new] at h1 h2
  exact ⟨h1, h2⟩

/-- C7: the claim says subscribe then unsubscribe of the same handler restores
the previous observable state.  The code violates this: starting from the
one-handler registry `[2]`, subscribing key `1` gives `[1, 2]`, and
unsubscribing key `1` reports `true` but removes nothing, leaving `[1, 2]`,
which differs in size and membership from the original `[2]`. -/
theorem roundtrip_fails :
    unsubscribe_handler (subscribe_handler ⟨[2]⟩ 1) 1 = some (true, ⟨[1, 2]⟩)
  ∧ (⟨[1, 2]⟩ : EventPublisher) ≠ ⟨[2]⟩ := by
  constructor
  · have hsub : subscribe_handler ⟨[2]⟩ 1 = ⟨[1, 2]⟩ := by
      simp [subscribe_handler, List.mergeSort]
    rw [hsub]
    simp [unsubscribe_handler, unsub_common_match, recursive_unsub_search,
      usize_sub, USIZE, compare, compareOfLessAndEq]
  · decide

/-- C8: on any publisher whose registry is empty, `unsubscribe_handler`
returns normally (no panic) with the boolean result `false` and leaves the
publisher as it was — "not found" is an ordinary `false`, not an error. -/
theorem unsubscribe_empty_false (pub : EventPublisher) (p : Nat)
    (h : pub.handlers = []) :
    unsubscribe_handler pub p = some (false, pub) := by
  rw [unsubscribe_handler, if_pos (by simp [h])]

/-- C8 witness: unsubscribing key `7` from a newly constructed publisher. -/
theorem unsubscribe_empty_false_witness :
    (EventPublisher.new.handlers = [])
  ∧ unsubscribe_handler EventPublisher.new 7 = some (false, EventPublisher.new) :=
  ⟨rfl, unsubscribe_empty_false EventPublisher.new 7 rfl⟩

/-- C9: the claim says that on a registry holding duplicates of one identity
key a single unsubscribe removes exactly one matching entry and keeps the
rest.  The code violates this: `[2, 2, 5, 9]` is a sorted registry holding
key `2` twice, yet unsubscribing key `2` panics (the search reaches bounds
`(0, 1)`, underflows, and indexes out of range), removing nothing. -/
theorem unsubscribe_duplicates_panics :
    List.count 2 [2, 2, 5, 9] = 2
  ∧ SortedByKey [2, 2, 5, 9]
  ∧ unsubscribe_handler ⟨[2, 2, 5, 9]⟩ 2 = none := by
  refine ⟨by decide, by decide, ?_⟩
  simp [unsubscribe_handler, unsub_common_match, recursive_unsub_search,
    usize_sub, USIZE, compare, compareOfLessAndEq]

/-- C10: whenever `unsubscribe_handler` returns `false` the registry is
completely unchanged — same length, same entries, same order; the only
mutating path of the search is the exact-match branch, which returns `true`. -/
theorem unsubscribe_false_frame (pub pub' : EventPublisher) (p : Nat)
    (h : unsubscribe_handler pub p = some (false, pub')) : pub' = pub := by
  rw [unsubscribe_handler] at h
  split at h
  · obtain ⟨hb, hp⟩ := Prod.mk.injEq .. ▸ (Option.some.injEq .. ▸ h)
    exact hp.symm
  · split at h
    · cases h
    · rename_i b0 hs0 hmatch
      obtain ⟨hb, hp⟩ := Prod.mk.injEq .. ▸ (Option.some.injEq .. ▸ h)
      rcases (unsub_shape _).1 _ _ _ _ _ _ _ hmatch with heq | ⟨hb0, i, hi, heq⟩
      · rw [← hp, heq]
      · exact absurd (hb0 ▸ hb) (by simp)

/-- C10 witness: the failed lookup of key `2` in the registry `[1, 3]`. -/
theorem unsubscribe_false_frame_witness :
    unsubscribe_handler ⟨[1, 3]⟩ 2 = some (false, ⟨[1, 3]⟩)
  ∧ (⟨[1, 3]⟩ : EventPublisher) = (⟨[1, 3]⟩ : EventPublisher) := by
  have hev : unsubscribe_handler ⟨[1, 3]⟩ 2 = some (false, ⟨[1, 3]⟩) := by
    simp [unsubscribe_handler, unsub_common_match, recursive_unsub_search,
      usize_sub, USIZE, compare, compareOfLessAndEq]
  exact ⟨hev, unsubscribe_false_frame ⟨[1, 3]⟩ ⟨[1, 3]⟩ 2 hev⟩
